import Mathlib

/-
Verification of the authselect configuration-state verifier and profile
catalog merger, a shallow embedding of:
  src/lib/authselect_check.c  (content and symlink verification),
  src/lib/authselect_util.c   (stat, mode, link and existence primitives),
  src/lib/authselect_dir.c    (profile directory merge and sort).
C strings are modelled as lists of characters (the bytes before the
terminating null), errno_t values as an inductive of nonzero errno codes
plus a success marker, and the read-only OS primitives as a record of
functions standing for one filesystem snapshot.
-/

/-- Characters of a C string: the bytes before the terminating null. -/
abbrev CStr := List Char

/-- Nonzero errno codes the modelled primitives can fail with. -/
inductive Errno where
  | ENOENT
  | EACCES
  | EIO
  | ENOMEM
  | EINVAL
  | other (n : Nat)
deriving DecidableEq, Repr

/-- Value of a C errno_t return: zero (EOK, success) or a nonzero errno. -/
inductive Ret where
  | eok
  | err (e : Errno)
deriving DecidableEq, Repr

/-- Fields of struct stat the verifier inspects. -/
structure Stat where
  st_mode : Nat
  st_uid : Nat
  st_gid : Nat
deriving DecidableEq, Repr

/-- One filesystem snapshot: the read-only OS primitives the verifier
consumes (read_textfile, lstat, readlink, access). -/
structure FS where
  readfile : CStr → Except Errno CStr
  lstat : CStr → Except Errno Stat
  readlink : CStr → Except Errno CStr
  access : CStr → Ret

deriving instance DecidableEq for Except

/-- Mode bit mask S_IFMT: the file-type bits. -/
def S_IFMT : Nat := 0o170000

/-- Mode bits S_IFREG: regular file. -/
def S_IFREG : Nat := 0o100000

/-- Mode bits S_IFLNK: symbolic link. -/
def S_IFLNK : Nat := 0o120000

/-- Mode bit mask ALLPERMS: all permission bits including setuid, setgid
and sticky (07777). -/
def ALLPERMS : Nat := 0o7777

/-- Mode bit mask ACCESSPERMS: read, write and execute for all (0777). -/
def ACCESSPERMS : Nat := 0o777

/-- Truth of the C test S_ISLNK(m). -/
def S_ISLNK (m : Nat) : Bool := decide (m &&& S_IFMT = S_IFLNK)

/-- Mode bits 0644 passed for generated files in check_generated_file
(S_IRUSR, S_IWUSR, S_IRGRP, S_IROTH). -/
def GENERATED_FILE_MODE : Nat := 0o644

/-- Modelled from the spec: the expected-owner constant AUTHSELECT_UID comes
from a header outside the given sources; the spec only says owner and group
comparisons are skippable via a sentinel, and the tool installs as root, so
the owner is modelled as 0.  No claim depends on this value. -/
def AUTHSELECT_UID : Option Nat := some 0

/-- Modelled from the spec: the expected-group constant AUTHSELECT_GID, as
for AUTHSELECT_UID.  No claim depends on this value. -/
def AUTHSELECT_GID : Option Nat := some 0

/-- Truth of strncmp(a, b, n) == 0 for null-free C strings: their first n
characters coincide (a string shorter than n ends with the terminator,
which only matches the other string ending at the same place). -/
def strncmp_eq0 (a b : CStr) (n : Nat) : Bool := decide (a.take n = b.take n)

/-- Translation of check_type (authselect_util.c): the file-type bits of
the stat result must equal the expected type bits of mode. -/
def check_type (st : Stat) (mode : Nat) : Bool :=
  decide (mode &&& S_IFMT = st.st_mode &&& S_IFMT)

/-- Translation of check_mode (authselect_util.c): type bits, permission
bits, and — unless the sentinel -1 (modelled as none) is given — owner and
group must all match. -/
def check_mode (st : Stat) (uid gid : Option Nat) (mode : Nat) : Bool :=
  check_type st mode &&
  decide (mode &&& ALLPERMS = st.st_mode &&& ALLPERMS) &&
  (match uid with
   | none => true
   | some u => decide (st.st_uid = u)) &&
  (match gid with
   | none => true
   | some g => decide (st.st_gid = g))

/-- Translation of check_internal (authselect_util.c): lstat the path; a
missing path is a plain invalid result, any other lstat failure is
propagated; otherwise the mode check decides validity. -/
def check_internal (fs : FS) (filepath : CStr) (uid gid : Option Nat)
    (mode : Nat) : Except Errno Bool :=
  match fs.lstat filepath with
  | .error e => if e = .ENOENT then .ok false else .error e
  | .ok st => .ok (check_mode st uid gid mode)

/-- Translation of check_file (authselect_util.c). -/
def check_file (fs : FS) (filepath : CStr) (uid gid : Option Nat)
    (permissions : Nat) : Except Errno Bool :=
  check_internal fs filepath uid gid (S_IFREG ||| permissions)

/-- Translation of check_link (authselect_util.c): the path must be a
symbolic link with mode 0777, and its target read by readlink must match
destpath under strncmp bounded by the length of the target as read. -/
def check_link (fs : FS) (linkpath destpath : CStr) : Except Errno Bool :=
  match check_internal fs linkpath none none (S_IFLNK ||| ACCESSPERMS) with
  | .error e => .error e
  | .ok false => .ok false
  | .ok true =>
    match fs.readlink linkpath with
    | .error e => .error e
    | .ok linkbuf => .ok (strncmp_eq0 linkbuf destpath linkbuf.length)

/-- Translation of check_notalink (authselect_util.c): a missing path or a
non-symlink is fine; a symlink whose target matches destpath under strncmp
bounded by the target length is the flagged (invalid) case. -/
def check_notalink (fs : FS) (linkpath destpath : CStr) : Except Errno Bool :=
  match fs.lstat linkpath with
  | .error e => if e = .ENOENT then .ok true else .error e
  | .ok st =>
    if ¬ S_ISLNK st.st_mode then .ok true
    else
      match fs.readlink linkpath with
      | .error e => .error e
      | .ok linkbuf =>
        if strncmp_eq0 linkbuf destpath linkbuf.length then .ok false
        else .ok true

/-- Translation of check_exists (authselect_util.c), via check_access. -/
def check_exists (fs : FS) (path : CStr) : Ret := fs.access path

/-- Suffix of a C string just past its first newline, when it has one
(the pointer strchr(s, newline) + 1). -/
def afterNewline : CStr → Option CStr
  | [] => none
  | c :: cs => if c = '\n' then some cs else afterNewline cs

/-- Translation of check_content (authselect_check.c): two lines starting
with a comment marker, one empty line, then exactly the expected body. -/
def check_content (content expected : CStr) : Bool :=
  match content with
  | [] => false
  | c0 :: _ =>
    if c0 ≠ '#' then false
    else
      match afterNewline content with
      | none => false
      | some l2 =>
        match l2 with
        | [] => false
        | c1 :: _ =>
          if c1 ≠ '#' then false
          else
            match afterNewline l2 with
            | none => false
            | some l3 =>
              match l3 with
              | [] => false
              | c2 :: rest =>
                if c2 ≠ '\n' then false else decide (rest = expected)

/-- Null-pointer handling in check_generated_file: a NULL expected content
is replaced by the empty string. -/
def null_to_empty : Option CStr → CStr
  | none => []
  | some s => s

/-- Translation of check_generated_file (authselect_check.c): a missing or
permission-denied content read marks the file invalid without failing the
run, any other read failure is propagated; then the content shape and the
file mode decide validity. -/
def check_generated_file (fs : FS) (path : CStr) (expected_content : Option CStr) :
    Except Errno Bool :=
  match fs.readfile path with
  | .error e =>
    if e = .ENOENT then .ok false
    else if e = .EACCES then .ok false
    else .error e
  | .ok content =>
    if ¬ check_content content (null_to_empty expected_content) then .ok false
    else check_file fs path AUTHSELECT_UID AUTHSELECT_GID GENERATED_FILE_MODE

/-- One entry of the GENERATED_FILES table: a path and its expected content
(possibly NULL). -/
structure authselect_generated where
  path : CStr
  content : Option CStr
deriving DecidableEq, Repr

/-- One entry of the SYMLINK_FILES table: link path and expected target. -/
structure authselect_symlink where
  name : CStr
  dest : CStr
deriving DecidableEq, Repr

/-- Translation of check_generated_files (authselect_check.c): check each
generated file, propagate any fatal error, conjoin the validities. -/
def check_generated_files (fs : FS) : List authselect_generated → Except Errno Bool
  | [] => .ok true
  | g :: gs =>
    match check_generated_file fs g.path g.content with
    | .error e => .error e
    | .ok v =>
      match check_generated_files fs gs with
      | .error e => .error e
      | .ok rest => .ok (v && rest)

/-- Translation of check_symlinks (authselect_check.c): check each expected
symlink, propagate any fatal error, conjoin the validities. -/
def check_symlinks (fs : FS) : List authselect_symlink → Except Errno Bool
  | [] => .ok true
  | s :: ss =>
    match check_link fs s.name s.dest with
    | .error e => .error e
    | .ok v =>
      match check_symlinks fs ss with
      | .error e => .error e
      | .ok rest => .ok (v && rest)

/-- First loop of check_missing_conf: every generated-file path must be
absent; an existing path only clears the accumulator and the scan goes on,
ENOENT is the good case, any other access failure is propagated. -/
def missing_generated_loop (fs : FS) : List CStr → Bool → Except Errno Bool
  | [], acc => .ok acc
  | p :: ps, acc =>
    match check_exists fs p with
    | .eok => missing_generated_loop fs ps false
    | .err e =>
      if e = .ENOENT then missing_generated_loop fs ps acc else .error e

/-- Second loop of check_missing_conf: an existing path at a symlink slot is
examined with check_notalink; a flagged leftover clears the accumulator and
the scan goes on, ENOENT is the good case, other failures are propagated. -/
def missing_symlinks_loop (fs : FS) : List authselect_symlink → Bool → Except Errno Bool
  | [], acc => .ok acc
  | s :: ss, acc =>
    match check_exists fs s.name with
    | .eok =>
      match check_notalink fs s.name s.dest with
      | .error e => .error e
      | .ok b => missing_symlinks_loop fs ss (acc && b)
    | .err e =>
      if e = .ENOENT then missing_symlinks_loop fs ss acc else .error e

/-- Translation of check_missing_conf (authselect_check.c): both loops over
one shared validity accumulator, written out only on success. -/
def check_missing_conf (fs : FS) (gens : List CStr) (syms : List authselect_symlink) :
    Except Errno Bool :=
  match missing_generated_loop fs gens true with
  | .error e => .error e
  | .ok acc => missing_symlinks_loop fs syms acc

/-- Translation of check_existing_conf (authselect_check.c), with the
profile compilation authselect_cat (outside the given sources) passed in as
its result: a compilation failure is propagated, otherwise generated files
and symlinks are both checked and the validities conjoined. -/
def check_existing_conf (fs : FS) (syms : List authselect_symlink)
    (cat : Except Errno (List authselect_generated)) : Except Errno Bool :=
  match cat with
  | .error e => .error e
  | .ok files =>
    match check_generated_files fs files with
    | .error e => .error e
    | .ok v1 =>
      match check_symlinks fs syms with
      | .error e => .error e
      | .ok v2 => .ok (v1 && v2)

/-- Translation of authselect_check_conf (authselect_check.c), with the
record read authselect_read_conf and the compilation authselect_cat
(outside the given sources) passed in.  The pair holds the returned errno_t
and the value written through the out-parameter, none when the function
returns without writing it. -/
def authselect_check_conf (fs : FS) (gens : List CStr)
    (syms : List authselect_symlink) (read_conf : Except Errno (CStr × List CStr))
    (cat : CStr × List CStr → Except Errno (List authselect_generated)) :
    Ret × Option Bool :=
  match read_conf with
  | .error e =>
    if e = .ENOENT then
      match check_missing_conf fs gens syms with
      | .error r => (.err r, none)
      | .ok v => (.err .ENOENT, some v)
    else (.err e, none)
  | .ok conf =>
    match check_existing_conf fs syms (cat conf) with
    | .error r => (.err r, none)
    | .ok v => (.eok, some v)

/-- Loop of authselect_check_symlinks_presence: an existing path sets the
flag and the scan goes on, ENOENT is skipped, any other access failure is
returned with the out-parameter unwritten. -/
def symlinks_presence_loop (fs : FS) : List authselect_symlink → Bool → Ret × Option Bool
  | [], exist => (.eok, some exist)
  | s :: ss, exist =>
    match check_exists fs s.name with
    | .eok => symlinks_presence_loop fs ss true
    | .err e =>
      if e = .ENOENT then symlinks_presence_loop fs ss exist else (.err e, none)

/-- Translation of authselect_check_symlinks_presence (authselect_check.c). -/
def authselect_check_symlinks_presence (fs : FS) (syms : List authselect_symlink) :
    Ret × Option Bool :=
  symlinks_presence_loop fs syms false

/-- Byte-wise string comparison: truth of strcmp(a, b) <= 0 for null-free
strings (a missing character, i.e. the terminator, sorts first). -/
def cstr_le : CStr → CStr → Bool
  | [], _ => true
  | _ :: _, [] => false
  | x :: xs, y :: ys => if x = y then cstr_le xs ys else decide (x < y)

/-- Modelled from the spec: authselect_is_custom_profile (its definition is
outside the given sources) recognises an identifier carrying the custom
namespace marker, the custom/ prefix. -/
def authselect_is_custom_profile (s : CStr) : Bool :=
  "custom/".data.isPrefixOf s

/-- Modelled from the spec: authselect_profile_custom_id (its definition is
outside the given sources) transforms a custom directory entry into its
custom-namespaced identifier by prepending custom/. -/
def authselect_profile_custom_id (s : CStr) : CStr :=
  "custom/".data ++ s

/-- Truth of sort_profile_ids(a, b) <= 0 (authselect_dir.c) on non-null
entries: custom profiles go last, otherwise byte-wise order. -/
def profile_le (a b : CStr) : Bool :=
  if authselect_is_custom_profile a = authselect_is_custom_profile b then cstr_le a b
  else authselect_is_custom_profile b

/-- Ordering relation of the qsort comparator sort_profile_ids, as a
proposition. -/
def ProfileLE (a b : CStr) : Prop := profile_le a b = true

instance : DecidableRel ProfileLE :=
  fun a b => inferInstanceAs (Decidable (profile_le a b = true))

/-- Translation of merge_default (authselect_dir.c): append every profile
of the default directory to the accumulated identifier array. -/
def merge_default (ids : List CStr) (profiles : List CStr) : List CStr :=
  ids ++ profiles

/-- Loop of merge_vendor: orig is the identifier array as it stood on entry
(the first input_index slots, the only ones the inner comparison scans);
acc is the array as it grows. -/
def merge_vendor_loop (orig : List CStr) (acc : List CStr) : List CStr → List CStr
  | [] => acc
  | p :: ps =>
    if orig.contains p then merge_vendor_loop orig acc ps
    else merge_vendor_loop orig (acc ++ [p]) ps

/-- Translation of merge_vendor (authselect_dir.c): append a vendor profile
only when it does not occur among the entries present on entry. -/
def merge_vendor (ids : List CStr) (profiles : List CStr) : List CStr :=
  merge_vendor_loop ids ids profiles

/-- Translation of merge_custom (authselect_dir.c): append every custom
profile under its custom-namespaced identifier. -/
def merge_custom (ids : List CStr) (profiles : List CStr) : List CStr :=
  ids ++ profiles.map authselect_profile_custom_id

/-- Translation of authselect_merge_profiles (authselect_dir.c): default
entries, then deduplicated vendor entries, then namespaced custom entries,
sorted by the sort_profile_ids comparator (the terminating null slot the C
qsort call also covers sorts last and is not part of the list model). -/
def authselect_merge_profiles (profile vendor custom : List CStr) : List CStr :=
  List.insertionSort ProfileLE
    (merge_custom (merge_vendor (merge_default [] profile) vendor) custom)

/-- Concrete snapshot for C2: content reads succeed with a well-formed
generated file, but every stat fails with EACCES. -/
def fsC2 : FS where
  readfile := fun _ => .ok "# Generated by authselect\n# Do not modify\n\nBODY\n".data
  lstat := fun _ => .error .EACCES
  readlink := fun _ => .error .EACCES
  access := fun _ => .err .EACCES

/-- Concrete snapshot for C6: the path is a symlink whose target is a strict
proper prefix of the expected destination used in the claim. -/
def fsC6 : FS where
  readfile := fun _ => .error .ENOENT
  lstat := fun _ => .ok ⟨0o120777, 0, 0⟩
  readlink := fun _ => .ok "/etc/authselect/a".data
  access := fun _ => .eok

/-- Concrete snapshot for C7: a symlink with mode 0777 whose target is a
strict proper prefix of the expected destination used in the claim. -/
def fsC7 : FS where
  readfile := fun _ => .error .ENOENT
  lstat := fun _ => .ok ⟨0o120777, 0, 0⟩
  readlink := fun _ => .ok "/etc/authselect/nsswitch".data
  access := fun _ => .eok

/-- Concrete snapshot for C10: a symlink with permission bits 0755 whose
target equals the expected destination used in the claim. -/
def fsC10 : FS where
  readfile := fun _ => .error .ENOENT
  lstat := fun _ => .ok ⟨0o120755, 0, 0⟩
  readlink := fun _ => .ok "/etc/authselect/x".data
  access := fun _ => .eok

theorem afterNewline_newline (cs : CStr) : afterNewline ('\n' :: cs) = some cs := by
  simp [afterNewline]

theorem afterNewline_other {c : Char} (cs : CStr) (h : c ≠ '\n') :
    afterNewline (c :: cs) = afterNewline cs := by
  simp [afterNewline, h]

theorem afterNewline_eq_some {l r : CStr} :
    afterNewline l = some r ↔ ∃ a, '\n' ∉ a ∧ l = a ++ '\n' :: r := by
  induction l with
  | nil =>
    constructor
    · intro h; simp [afterNewline] at h
    · rintro ⟨a, -, h⟩; exact absurd h.symm (by simp)
  | cons c cs ih =>
    by_cases hc : c = '\n'
    · subst hc
      rw [afterNewline_newline, Option.some_inj]
      constructor
      · rintro rfl; exact ⟨[], by simp, rfl⟩
      · rintro ⟨a, ha, heq⟩
        cases a with
        | nil => simpa using heq
        | cons x xs =>
          rw [List.cons_append] at heq
          injection heq with h1 h2
          rw [List.mem_cons, not_or] at ha
          exact absurd h1 ha.1
    · rw [afterNewline_other cs hc, ih]
      constructor
      · rintro ⟨a, ha, rfl⟩
        refine ⟨c :: a, ?_, by rw [List.cons_append]⟩
        rw [List.mem_cons, not_or]
        exact ⟨fun h => hc h.symm, ha⟩
      · rintro ⟨a, ha, heq⟩
        cases a with
        | nil =>
          rw [List.nil_append] at heq
          injection heq with h1 h2
          exact absurd h1 hc
        | cons x xs =>
          rw [List.cons_append] at heq
          injection heq with h1 h2
          rw [List.mem_cons, not_or] at ha
          exact ⟨xs, ha.2, h2⟩

theorem afterNewline_append {a : CStr} (r : CStr) (h : '\n' ∉ a) :
    afterNewline (a ++ '\n' :: r) = some r :=
  afterNewline_eq_some.mpr ⟨a, h, rfl⟩

theorem check_content_iff (content expected : CStr) :
    check_content content expected = true ↔
    ∃ a b, '\n' ∉ a ∧ '\n' ∉ b ∧
      content = ('#' :: a) ++ ['\n'] ++ ('#' :: b) ++ ['\n', '\n'] ++ expected := by
  constructor
  · intro h
    cases content with
    | nil => simp [check_content] at h
    | cons c0 rest =>
    by_cases h0 : c0 = '#'
    case neg => simp [check_content, h0] at h
    subst h0
    cases han : afterNewline ('#' :: rest) with
    | none => simp [check_content, han] at h
    | some l2 =>
    cases l2 with
    | nil => simp [check_content, han] at h
    | cons c1 rest2 =>
    by_cases h1 : c1 = '#'
    case neg => simp [check_content, han, h1] at h
    subst h1
    cases han2 : afterNewline ('#' :: rest2) with
    | none => simp [check_content, han, han2] at h
    | some l3 =>
    cases l3 with
    | nil => simp [check_content, han, han2] at h
    | cons c2 rest3 =>
    by_cases h2 : c2 = '\n'
    case neg => simp [check_content, han, han2, h2] at h
    subst h2
    have hrest : rest3 = expected := by
      simp [check_content, han, han2] at h
      exact h
    subst hrest
    obtain ⟨a1, hna1, heq1⟩ := afterNewline_eq_some.mp han
    obtain ⟨a2, hna2, heq2⟩ := afterNewline_eq_some.mp han2
    cases a1 with
    | nil => rw [List.nil_append] at heq1; injection heq1 with hx _; exact absurd hx (by decide)
    | cons x xs =>
    rw [List.cons_append] at heq1
    injection heq1 with hx1 hr1
    cases a2 with
    | nil => rw [List.nil_append] at heq2; injection heq2 with hy _; exact absurd hy (by decide)
    | cons y ys =>
    rw [List.cons_append] at heq2
    injection heq2 with hy1 hr2
    rw [List.mem_cons, not_or] at hna1 hna2
    refine ⟨xs, ys, hna1.2, hna2.2, ?_⟩
    rw [List.cons_append]
    refine congrArg (List.cons '#') ?_
    rw [hr1, hr2]
    simp
  · rintro ⟨a, b, ha, hb, rfl⟩
    have hna : ('\n' : Char) ∉ '#' :: a := by
      rw [List.mem_cons, not_or]; exact ⟨by decide, ha⟩
    have hnb : ('\n' : Char) ∉ '#' :: b := by
      rw [List.mem_cons, not_or]; exact ⟨by decide, hb⟩
    have hshape : ('#' :: a) ++ ['\n'] ++ ('#' :: b) ++ ['\n', '\n'] ++ expected
        = ('#' :: a) ++ '\n' :: (('#' :: b) ++ '\n' :: '\n' :: expected) := by simp
    rw [hshape]
    have h1 : afterNewline (('#' :: a) ++ '\n' :: (('#' :: b) ++ '\n' :: '\n' :: expected))
        = some (('#' :: b) ++ '\n' :: '\n' :: expected) := afterNewline_append _ hna
    have h2 : afterNewline (('#' :: b) ++ '\n' :: ('\n' :: expected))
        = some ('\n' :: expected) := afterNewline_append _ hnb
    simp only [List.cons_append] at h1 h2 ⊢
    simp [check_content, h1, h2]

/-- C1: a generated file's content is judged valid if and only if it is two
lines each starting with a comment marker, one empty line, and then exactly
the expected body; a NULL expected body stands for the empty body, and the
text of the two comment lines is otherwise ignored. -/
theorem claim_C1 (content : CStr) (e : Option CStr) :
    check_content content (null_to_empty e) = true ↔
    ∃ a b, '\n' ∉ a ∧ '\n' ∉ b ∧
      content = ('#' :: a) ++ ['\n'] ++ ('#' :: b) ++ ['\n', '\n'] ++ null_to_empty e :=
  check_content_iff content (null_to_empty e)

/-- C2 counterexample: on the snapshot fsC2 the content read succeeds and the
content matches, but the metadata stat fails with permission denied, and
check_generated_file propagates EACCES as a failure of the whole run instead
of marking the artifact invalid — so a permission-denied outcome met while
checking an artifact is not always folded into per-artifact validity. -/
theorem claim_C2_counterexample :
    check_generated_file fsC2 "/etc/nsswitch.conf".data (some "BODY\n".data)
      ≠ .ok false ∧
    check_generated_file fsC2 "/etc/nsswitch.conf".data (some "BODY\n".data)
      ≠ .ok true ∧
    check_generated_file fsC2 "/etc/nsswitch.conf".data (some "BODY\n".data)
      = .error .EACCES := by
  refine ⟨by decide, by decide, by decide⟩

/-- C2 amended: a not-found outcome while reading an artifact (content read
or metadata stat) marks only that artifact invalid and the call succeeds.
Permission denied is folded into validity only for the content read in
check_generated_file; a permission-denied metadata stat in check_internal,
like every other OS failure, aborts with the error propagated. -/
theorem claim_C2_amended :
    (∀ (fs : FS) (p : CStr) (exp : Option CStr),
        fs.readfile p = .error .ENOENT → check_generated_file fs p exp = .ok false) ∧
    (∀ (fs : FS) (p : CStr) (exp : Option CStr),
        fs.readfile p = .error .EACCES → check_generated_file fs p exp = .ok false) ∧
    (∀ (fs : FS) (p : CStr) (exp : Option CStr) (e : Errno),
        fs.readfile p = .error e → e ≠ .ENOENT → e ≠ .EACCES →
        check_generated_file fs p exp = .error e) ∧
    (∀ (fs : FS) (p : CStr) (uid gid : Option Nat) (m : Nat),
        fs.lstat p = .error .ENOENT → check_internal fs p uid gid m = .ok false) ∧
    (∀ (fs : FS) (p : CStr) (uid gid : Option Nat) (m : Nat) (e : Errno),
        fs.lstat p = .error e → e ≠ .ENOENT →
        check_internal fs p uid gid m = .error e) := by
  refine ⟨?_, ?_, ?_, ?_, ?_⟩
  · intro fs p exp h; simp [check_generated_file, h]
  · intro fs p exp h; simp [check_generated_file, h]
  · intro fs p exp e h h1 h2; simp [check_generated_file, h, h1, h2]
  · intro fs p uid gid m h; simp [check_internal, h]
  · intro fs p uid gid m e h h1; simp [check_internal, h, h1]

theorem missing_symlinks_loop_false (fs : FS) (syms : List authselect_symlink) :
    ∀ b, missing_symlinks_loop fs syms false = .ok b → b = false := by
  induction syms with
  | nil => intro b h; simpa [missing_symlinks_loop] using h.symm
  | cons s ss ih =>
    intro b h
    rw [missing_symlinks_loop] at h
    cases hex : check_exists fs s.name with
    | eok =>
      rw [hex] at h
      cases hna : check_notalink fs s.name s.dest with
      | error e => rw [hna] at h; cases h
      | ok v => rw [hna] at h; exact ih b (by simpa using h)
    | err e =>
      simp only [hex] at h
      by_cases he : e = .ENOENT
      · rw [if_pos he] at h; exact ih b h
      · rw [if_neg he] at h; cases h

theorem missing_symlinks_loop_flagged (fs : FS) (s : authselect_symlink)
    (hex : check_exists fs s.name = .eok)
    (hna : check_notalink fs s.name s.dest = .ok false) :
    ∀ (syms : List authselect_symlink), s ∈ syms →
    ∀ acc b, missing_symlinks_loop fs syms acc = .ok b → b = false := by
  intro syms
  induction syms with
  | nil => intro hmem; cases hmem
  | cons t ts ih =>
    intro hmem acc b h
    rw [missing_symlinks_loop] at h
    rcases List.mem_cons.mp hmem with rfl | hmem2
    · rw [hex, hna] at h
      exact missing_symlinks_loop_false fs ts b (by simpa using h)
    · cases hex2 : check_exists fs t.name with
      | eok =>
        rw [hex2] at h
        cases hna2 : check_notalink fs t.name t.dest with
        | error e => rw [hna2] at h; cases h
        | ok v => rw [hna2] at h; exact ih hmem2 (acc && v) b h
      | err e =>
        simp only [hex2] at h
        by_cases he : e = .ENOENT
        · rw [if_pos he] at h; exact ih hmem2 acc b h
        · rw [if_neg he] at h; cases h

/-- C6 counterexample: on the snapshot fsC6 the path holds a symbolic link
whose target is a strict proper prefix of — hence different from — the
expected destination, yet check_notalink flags it as a leftover (returns
validity false), where the claim says a link whose target differs from the
expected destination is judged valid. -/
theorem claim_C6_counterexample :
    fsC6.readlink "/etc/nsswitch.conf".data = .ok "/etc/authselect/a".data ∧
    "/etc/authselect/a".data ≠ "/etc/authselect/ab".data ∧
    check_notalink fsC6 "/etc/nsswitch.conf".data "/etc/authselect/ab".data
      = .ok false := by
  refine ⟨rfl, by decide, by decide⟩

/-- C6 amended: in the leftover check, a missing path or a non-symlink is
judged valid, and a symbolic link is flagged as a leftover exactly when its
target equals the expected destination truncated to the target's length
(the strncmp comparison is bounded by the read target length, so a target
that is a strict proper prefix of the destination is also flagged); any
flagged entry of the symlink table makes the aggregate validity false. -/
theorem claim_C6_amended :
    (∀ (fs : FS) (p d : CStr),
        fs.lstat p = .error .ENOENT → check_notalink fs p d = .ok true) ∧
    (∀ (fs : FS) (p d : CStr) (st : Stat),
        fs.lstat p = .ok st → S_ISLNK st.st_mode = false →
        check_notalink fs p d = .ok true) ∧
    (∀ (fs : FS) (p d : CStr) (st : Stat) (t : CStr),
        fs.lstat p = .ok st → S_ISLNK st.st_mode = true → fs.readlink p = .ok t →
        (check_notalink fs p d = .ok false ↔ t = d.take t.length)) ∧
    (∀ (fs : FS) (gens : List CStr) (syms : List authselect_symlink)
        (s : authselect_symlink) (b : Bool), s ∈ syms →
        check_exists fs s.name = .eok →
        check_notalink fs s.name s.dest = .ok false →
        check_missing_conf fs gens syms = .ok b → b = false) := by
  refine ⟨?_, ?_, ?_, ?_⟩
  · intro fs p d h; simp [check_notalink, h]
  · intro fs p d st h hlnk; simp [check_notalink, h, hlnk]
  · intro fs p d st t h hlnk ht
    rw [check_notalink]
    simp only [h, ht, hlnk, strncmp_eq0, List.take_length, eq_self_iff_true,
      not_true, if_false]
    by_cases hcmp : t = d.take t.length
    · rw [if_pos (decide_eq_true hcmp)]
      exact iff_of_true rfl hcmp
    · rw [if_neg (fun hh => hcmp (of_decide_eq_true hh))]
      exact iff_of_false (by simp) hcmp
  · intro fs gens syms s b hmem hex hna h
    rw [check_missing_conf] at h
    cases hg : missing_generated_loop fs gens true with
    | error e => rw [hg] at h; cases h
    | ok acc =>
      rw [hg] at h
      exact missing_symlinks_loop_flagged fs s hex hna syms hmem acc b h

/-- C7: when the path passes the symlink stat and mode check and its target
reads back as t, the link is judged valid exactly when t equals the expected
destination truncated to the length of t — the strncmp comparison inspects
only the first length-of-target bytes of the destination; consequently, on
the snapshot fsC7, a link whose actual target is a strict proper prefix of
the expected destination is judged valid. -/
theorem claim_C7 :
    (∀ (fs : FS) (linkpath destpath : CStr) (st : Stat) (t : CStr),
        fs.lstat linkpath = .ok st →
        check_mode st none none (S_IFLNK ||| ACCESSPERMS) = true →
        fs.readlink linkpath = .ok t →
        (check_link fs linkpath destpath = .ok true ↔ t = destpath.take t.length)) ∧
    ("/etc/authselect/nsswitch".data ≠ "/etc/authselect/nsswitch.conf".data ∧
     "/etc/authselect/nsswitch".data <+: "/etc/authselect/nsswitch.conf".data ∧
     fsC7.readlink "/etc/nsswitch.conf".data = .ok "/etc/authselect/nsswitch".data ∧
     check_link fsC7 "/etc/nsswitch.conf".data "/etc/authselect/nsswitch.conf".data
       = .ok true) := by
  constructor
  · intro fs linkpath destpath st t hst hmode ht
    rw [check_link, check_internal]
    simp only [hst, hmode, ht, strncmp_eq0, List.take_length, Except.ok.injEq]
    exact ⟨fun hh => of_decide_eq_true hh, fun hh => decide_eq_true hh⟩
  · exact ⟨by decide, by decide, rfl, by decide⟩

/-- C8: when the active-profile record read reports not-found, the entry
point runs the leftover check, stores the leftover validity in the output
flag, and returns ENOENT; when a record is present and the profile
compilation fails, the compilation error is returned and no validity value
is written. -/
theorem claim_C8 :
    (∀ (fs : FS) (gens : List CStr) (syms : List authselect_symlink)
        (cat : CStr × List CStr → Except Errno (List authselect_generated)) (v : Bool),
        check_missing_conf fs gens syms = .ok v →
        authselect_check_conf fs gens syms (.error .ENOENT) cat = (.err .ENOENT, some v)) ∧
    (∀ (fs : FS) (gens : List CStr) (syms : List authselect_symlink)
        (conf : CStr × List CStr)
        (cat : CStr × List CStr → Except Errno (List authselect_generated)) (e : Errno),
        cat conf = .error e →
        authselect_check_conf fs gens syms (.ok conf) cat = (.err e, none)) := by
  constructor
  · intro fs gens syms cat v h
    rw [authselect_check_conf]
    simp [h]
  · intro fs gens syms conf cat e h
    rw [authselect_check_conf]
    simp only [check_existing_conf, h]

theorem symlinks_presence_loop_ret (fs : FS) :
    ∀ (syms : List authselect_symlink) (ex : Bool) (r : Ret) (ob : Option Bool),
    symlinks_presence_loop fs syms ex = (r, ob) → ob ≠ none → r = .eok := by
  intro syms
  induction syms with
  | nil =>
    intro ex r ob h hob
    rw [symlinks_presence_loop] at h
    exact (Prod.mk.injEq _ _ _ _ ▸ h).1.symm ▸ rfl
  | cons s ss ih =>
    intro ex r ob h hob
    rw [symlinks_presence_loop] at h
    cases hex : check_exists fs s.name with
    | eok => rw [hex] at h; exact ih true r ob h hob
    | err e =>
      simp only [hex] at h
      by_cases he : e = .ENOENT
      · rw [if_pos he] at h; exact ih ex r ob h hob
      · rw [if_neg he] at h
        injection h with h1 h2
        exact absurd h2.symm hob

/-- C9: the public entry points write their boolean out-parameter only on a
success (EOK) or not-configured (ENOENT) return; every fatal-error return
leaves the caller's variable unwritten (the second component stays none). -/
theorem claim_C9 :
    (∀ (fs : FS) (gens : List CStr) (syms : List authselect_symlink)
        (rc : Except Errno (CStr × List CStr))
        (cat : CStr × List CStr → Except Errno (List authselect_generated))
        (r : Ret) (ob : Option Bool),
        authselect_check_conf fs gens syms rc cat = (r, ob) → ob ≠ none →
        r = .eok ∨ r = .err .ENOENT) ∧
    (∀ (fs : FS) (syms : List authselect_symlink) (r : Ret) (ob : Option Bool),
        authselect_check_symlinks_presence fs syms = (r, ob) → ob ≠ none →
        r = .eok) := by
  constructor
  · intro fs gens syms rc cat r ob h hob
    rw [authselect_check_conf.eq_def] at h
    split at h
    · split at h
      · split at h
        · injection h with h1 h2; exact absurd h2.symm hob
        · injection h with h1 h2; exact Or.inr h1.symm
      · injection h with h1 h2; exact absurd h2.symm hob
    · split at h
      · injection h with h1 h2; exact absurd h2.symm hob
      · injection h with h1 h2; exact Or.inl h1.symm
  · intro fs syms r ob h hob
    exact symlinks_presence_loop_ret fs syms false r ob h hob

/-- C10: check_link demands the symlink's permission bits equal 0777: an
existing symbolic link whose mode bits differ from ACCESSPERMS is marked
invalid before its target is even read, hence even if the target matches
the expected destination. -/
theorem claim_C10 (fs : FS) (linkpath destpath : CStr) (st : Stat)
    (hst : fs.lstat linkpath = .ok st)
    (hlnk : st.st_mode &&& S_IFMT = S_IFLNK)
    (hperm : st.st_mode &&& ALLPERMS ≠ ACCESSPERMS) :
    check_link fs linkpath destpath = .ok false := by
  have hmode : check_mode st none none (S_IFLNK ||| ACCESSPERMS) = false := by
    rw [check_mode]
    have e1 : (S_IFLNK ||| ACCESSPERMS) &&& ALLPERMS = ACCESSPERMS := by decide
    rw [e1]
    rw [decide_eq_false (fun hh => hperm hh.symm)]
    simp
  rw [check_link, check_internal]
  simp only [hst, hmode]

/-- C10 witness: on the snapshot fsC10 the link is a symlink with permission
bits 0755 whose target equals the expected destination, and it is judged
invalid. -/
theorem claim_C10_witness :
    check_link fsC10 "/etc/x.conf".data "/etc/authselect/x".data = .ok false :=
  claim_C10 fsC10 "/etc/x.conf".data "/etc/authselect/x".data ⟨0o120755, 0, 0⟩
    rfl (by decide) (by decide)

theorem cstr_le_total (a b : CStr) : cstr_le a b = true ∨ cstr_le b a = true := by
  induction a generalizing b with
  | nil => exact Or.inl rfl
  | cons x xs ih =>
    cases b with
    | nil => exact Or.inr rfl
    | cons y ys =>
      by_cases hxy : x = y
      · subst hxy
        rcases ih ys with h | h
        · left; simpa [cstr_le] using h
        · right; simpa [cstr_le] using h
      · have hyx : y ≠ x := fun hh => hxy hh.symm
        rcases lt_or_gt_of_ne hxy with h | h
        · left; simp [cstr_le, hxy, h]
        · right; simp [cstr_le, hyx, h]

theorem cstr_le_trans {a b c : CStr} (h1 : cstr_le a b = true)
    (h2 : cstr_le b c = true) : cstr_le a c = true := by
  induction a generalizing b c with
  | nil => rfl
  | cons x xs ih =>
    cases b with
    | nil => simp [cstr_le] at h1
    | cons y ys =>
      cases c with
      | nil => simp [cstr_le] at h2
      | cons z zs =>
        by_cases hxy : x = y <;> by_cases hyz : y = z
        · subst hxy; subst hyz
          simp only [cstr_le, if_pos] at h1 h2 ⊢
          exact ih h1 h2
        · subst hxy
          simp only [cstr_le, if_neg hyz] at h2
          have hlt : x < z := of_decide_eq_true h2
          simp [cstr_le, ne_of_lt hlt, hlt]
        · subst hyz
          simp only [cstr_le, if_neg hxy] at h1
          have hlt : x < y := of_decide_eq_true h1
          simp [cstr_le, ne_of_lt hlt, hlt]
        · simp only [cstr_le, if_neg hxy] at h1
          simp only [cstr_le, if_neg hyz] at h2
          have hlt : x < z := lt_trans (of_decide_eq_true h1) (of_decide_eq_true h2)
          simp [cstr_le, ne_of_lt hlt, hlt]

theorem cstr_le_antisymm {a b : CStr} (h1 : cstr_le a b = true)
    (h2 : cstr_le b a = true) : a = b := by
  induction a generalizing b with
  | nil =>
    cases b with
    | nil => rfl
    | cons y ys => simp [cstr_le] at h2
  | cons x xs ih =>
    cases b with
    | nil => simp [cstr_le] at h1
    | cons y ys =>
      by_cases hxy : x = y
      · subst hxy
        simp only [cstr_le, if_pos] at h1 h2
        rw [ih h1 h2]
      · have hyx : y ≠ x := fun hh => hxy hh.symm
        simp only [cstr_le, if_neg hxy] at h1
        simp only [cstr_le, if_neg hyx] at h2
        exact absurd (of_decide_eq_true h2) (lt_asymm (of_decide_eq_true h1))

instance : IsTotal CStr ProfileLE := ⟨by
  intro a b
  unfold ProfileLE profile_le
  by_cases hc : authselect_is_custom_profile a = authselect_is_custom_profile b
  · rw [if_pos hc, if_pos hc.symm]
    exact cstr_le_total a b
  · rw [if_neg hc, if_neg (fun hh => hc hh.symm)]
    cases hA : authselect_is_custom_profile a <;> cases hB : authselect_is_custom_profile b
    · exact absurd (hA.trans hB.symm) hc
    · exact Or.inl rfl
    · exact Or.inr rfl
    · exact absurd (hA.trans hB.symm) hc⟩

instance : IsTrans CStr ProfileLE := ⟨by
  intro a b c h1 h2
  unfold ProfileLE profile_le at h1 h2 ⊢
  by_cases hab : authselect_is_custom_profile a = authselect_is_custom_profile b <;>
    by_cases hbc : authselect_is_custom_profile b = authselect_is_custom_profile c
  · rw [if_pos hab] at h1
    rw [if_pos hbc] at h2
    rw [if_pos (hab.trans hbc)]
    exact cstr_le_trans h1 h2
  · rw [if_pos hab] at h1
    rw [if_neg hbc] at h2
    rw [if_neg (fun hh => hbc (hab.symm.trans hh))]
    exact h2
  · rw [if_neg hab] at h1
    rw [if_pos hbc] at h2
    rw [if_neg (fun hh => hab (hh.trans hbc.symm))]
    exact hbc.symm.trans h1
  · rw [if_neg hab] at h1
    rw [if_neg hbc] at h2
    exact absurd (h1.trans h2.symm) hbc⟩

instance : IsAntisymm CStr ProfileLE := ⟨by
  intro a b h1 h2
  unfold ProfileLE profile_le at h1 h2
  by_cases hab : authselect_is_custom_profile a = authselect_is_custom_profile b
  · rw [if_pos hab] at h1
    rw [if_pos hab.symm] at h2
    exact cstr_le_antisymm h1 h2
  · rw [if_neg hab] at h1
    rw [if_neg (fun hh => hab hh.symm)] at h2
    exact absurd (h2.trans h1.symm) hab⟩

theorem contains_eq_true_iff {l : List CStr} {x : CStr} :
    l.contains x = true ↔ x ∈ l := List.elem_iff

theorem merge_vendor_loop_eq (orig : List CStr) :
    ∀ (ps acc : List CStr),
    merge_vendor_loop orig acc ps = acc ++ ps.filter (fun p => ! orig.contains p) := by
  intro ps
  induction ps with
  | nil => intro acc; simp [merge_vendor_loop]
  | cons p ps ih =>
    intro acc
    by_cases h : orig.contains p
    · have hmem : p ∈ orig := contains_eq_true_iff.mp h
      rw [merge_vendor_loop, if_pos h, ih]
      simp [List.filter_cons, hmem]
    · have hmem : p ∉ orig := fun hm => h (contains_eq_true_iff.mpr hm)
      rw [merge_vendor_loop, if_neg h, ih]
      simp [List.filter_cons, hmem, List.append_assoc]

theorem authselect_merge_profiles_eq (d v c : List CStr) :
    authselect_merge_profiles d v c =
      List.insertionSort ProfileLE
        (d ++ v.filter (fun p => ! d.contains p) ++ c.map authselect_profile_custom_id) := by
  rw [authselect_merge_profiles, merge_custom, merge_vendor, merge_default,
    List.nil_append, merge_vendor_loop_eq]

theorem authselect_is_custom_profile_custom_id (s : CStr) :
    authselect_is_custom_profile (authselect_profile_custom_id s) = true := by
  rw [authselect_is_custom_profile, authselect_profile_custom_id]
  exact List.isPrefixOf_iff_prefix.mpr (List.prefix_append _ _)

theorem count_eq_of_perm {l l2 : List CStr} (p : l.Perm l2) (x : CStr) :
    l.count x = l2.count x :=
  p.countP_eq _

theorem count_eq_one_of_mem_beq {l : List CStr} {x : CStr} (hn : l.Nodup)
    (hm : x ∈ l) : l.count x = 1 := by
  induction l with
  | nil => cases hm
  | cons a l ih =>
    rw [List.count_cons]
    rcases List.mem_cons.mp hm with rfl | hm2
    · rw [List.count_eq_zero.mpr (List.nodup_cons.mp hn).1]
      simp
    · have hne : a ≠ x := fun hh => (List.nodup_cons.mp hn).1 (hh ▸ hm2)
      rw [ih (List.nodup_cons.mp hn).2 hm2]
      simp [hne]

/-- C3: merge_vendor appends a vendor identifier only when it is absent from
the identifier array as it stood on entry — the default-derived prefix —
never comparing against other vendor entries; hence a plain name present in
both the default and the vendor listing occurs exactly once in the merged
catalog, the default listing being duplicate-free. -/
theorem claim_C3 (d v c : List CStr) (name : CStr)
    (hnodup : d.Nodup) (hd : name ∈ d) (hv : name ∈ v)
    (hplain : authselect_is_custom_profile name = false) :
    (∀ ids ps, merge_vendor ids ps = ids ++ ps.filter (fun p => ! ids.contains p)) ∧
    (authselect_merge_profiles d v c).count name = 1 := by
  constructor
  · intro ids ps; rw [merge_vendor, merge_vendor_loop_eq]
  · have hnf : name ∉ v.filter (fun p => ! d.contains p) := by
      intro hmem
      have hp := List.of_mem_filter hmem
      rw [Bool.not_eq_true'] at hp
      exact Bool.false_ne_true (hp.symm.trans (contains_eq_true_iff.mpr hd))
    have hnm : name ∉ c.map authselect_profile_custom_id := by
      intro hmem
      obtain ⟨s, _, hes⟩ := List.mem_map.mp hmem
      have hcu := authselect_is_custom_profile_custom_id s
      rw [hes, hplain] at hcu
      cases hcu
    rw [authselect_merge_profiles_eq,
      count_eq_of_perm (List.perm_insertionSort ProfileLE _) name,
      List.count_append, List.count_append,
      count_eq_one_of_mem_beq hnodup hd,
      List.count_eq_zero.mpr hnf, List.count_eq_zero.mpr hnm]

/-- C3 witness: a name found in both the default and the vendor listing
occurs exactly once in the merged catalog. -/
theorem claim_C3_witness :
    (authselect_merge_profiles ["sssd".data] ["sssd".data, "local".data]
      ["mine".data]).count "sssd".data = 1 :=
  (claim_C3 ["sssd".data] ["sssd".data, "local".data] ["mine".data] "sssd".data
    (by decide) (by decide) (by decide) (by decide)).2

/-- C4: on the concrete listings default = [sssd, winbind],
vendor = [winbind, local], custom = [mine], the merge returns exactly
[local, sssd, winbind, custom/mine]: the vendor duplicate winbind is
dropped, the custom entry is namespaced, and plain entries are sorted
byte-wise before all custom-namespaced entries. -/
theorem claim_C4 :
    authselect_merge_profiles ["sssd".data, "winbind".data]
      ["winbind".data, "local".data] ["mine".data]
      = ["local".data, "sssd".data, "winbind".data, "custom/mine".data] := by
  decide

theorem contains_eq_of_perm {l l2 : List CStr} (p : l.Perm l2) (x : CStr) :
    l.contains x = l2.contains x := by
  by_cases hm : x ∈ l
  · rw [contains_eq_true_iff.mpr hm, contains_eq_true_iff.mpr (p.mem_iff.mp hm)]
  · have hm2 : x ∉ l2 := fun hh => hm (p.mem_iff.mpr hh)
    cases h1 : l.contains x with
    | false =>
      cases h2 : l2.contains x with
      | false => rfl
      | true => exact absurd (contains_eq_true_iff.mp h2) hm2
    | true => exact absurd (contains_eq_true_iff.mp h1) hm

/-- C5: with each source listing internally duplicate-free, permuting the
entries inside the source listings before merging leaves the final sorted
catalog unchanged. -/
theorem claim_C5 (d v c d2 v2 c2 : List CStr)
    (hd : d.Nodup) (hv : v.Nodup) (hc : c.Nodup)
    (pd : d.Perm d2) (pv : v.Perm v2) (pc : c.Perm c2) :
    authselect_merge_profiles d v c = authselect_merge_profiles d2 v2 c2 := by
  rw [authselect_merge_profiles_eq, authselect_merge_profiles_eq]
  have hfilter : (v.filter (fun p => ! d.contains p)).Perm
      (v2.filter (fun p => ! d2.contains p)) := by
    have h2 : v2.filter (fun p => ! d.contains p)
        = v2.filter (fun p => ! d2.contains p) :=
      List.filter_congr (fun x _ => by rw [contains_eq_of_perm pd x])
    rw [← h2]
    exact pv.filter _
  have hperm : (d ++ v.filter (fun p => ! d.contains p)
        ++ c.map authselect_profile_custom_id).Perm
      (d2 ++ v2.filter (fun p => ! d2.contains p)
        ++ c2.map authselect_profile_custom_id) :=
    (pd.append hfilter).append (pc.map _)
  exact List.eq_of_perm_of_sorted
    (((List.perm_insertionSort ProfileLE _).trans hperm).trans
      (List.perm_insertionSort ProfileLE _).symm)
    (List.sorted_insertionSort _ _) (List.sorted_insertionSort _ _)

/-- C5 witness: permuting the default listing leaves the merged catalog
unchanged on a concrete triple of listings. -/
theorem claim_C5_witness :
    authselect_merge_profiles ["winbind".data, "sssd".data] ["local".data] ["mine".data]
      = authselect_merge_profiles ["sssd".data, "winbind".data] ["local".data] ["mine".data] :=
  claim_C5 ["winbind".data, "sssd".data] ["local".data] ["mine".data]
    ["sssd".data, "winbind".data] ["local".data] ["mine".data]
    (by decide) (by decide) (by decide) (by decide) (by decide) (by decide)
